import Mathlib

/-!
# Verification of the FCC ULS downloader pipeline (src/main.py)

This file gives a shallow embedding of the parsing / merge / store logic of
`FCCULSDownloader` in `src/main.py` and proves properties of it.

Modelling conventions:
* SQLite rows are lists of `SqlValue` (NULL / TEXT / INTEGER / REAL); a table
  is a list of rows in insertion order.
* `INSERT OR REPLACE` against a UNIQUE index is modelled by `upsert`: all rows
  that would violate the index against the incoming row are deleted, then the
  incoming row is appended.  Following SQLite, two NULLs are *distinct* for
  the purposes of a UNIQUE index, so a row with a NULL key component never
  conflicts with anything.
* Python's `str.strip()` is `pystrip`; CPython's `float(...)` / `int(...)`
  on finite decimal literals are `pyFloat` / `pyInt` returning exact
  rationals / integers (`none` models `ValueError`).  Special float values
  (`inf`, `nan`) and digit underscores are outside the modelled fragment;
  none of the verified properties depend on them.
-/

/-! ## Python string stripping -/

def isPySpace (c : Char) : Bool := c.isWhitespace

/-- `str.strip()` on the underlying character list. -/
def pystripList (l : List Char) : List Char :=
  ((l.dropWhile isPySpace).reverse.dropWhile isPySpace).reverse

/-- Python `str.strip()`. -/
def pystrip (s : String) : String := String.mk (pystripList s.data)

/-- Python `str.upper()` (character-wise; the status values compared by this
program are plain ASCII). -/
def pyupper (s : String) : String := String.mk (s.data.map Char.toUpper)

/-! ## Lenient numeric parsing (CPython `int(...)` and `float(...)`) -/

def digitsToNat (l : List Char) : Nat :=
  l.foldl (fun n c => 10 * n + (c.toNat - ('0').toNat)) 0

def allDigits (l : List Char) : Bool := !l.isEmpty && l.all Char.isDigit

/-- `int(s)` on an already-stripped character list: optional sign then digits. -/
def pyIntOfChars : List Char → Option Int
  | '+' :: rest => if allDigits rest then some (Int.ofNat (digitsToNat rest)) else none
  | '-' :: rest => if allDigits rest then some (-(Int.ofNat (digitsToNat rest))) else none
  | rest => if allDigits rest then some (Int.ofNat (digitsToNat rest)) else none

/-- CPython `int(value)`: surrounding whitespace is ignored, failures are `none`. -/
def pyInt (s : String) : Option Int := pyIntOfChars (pystripList s.data)

/-- Unsigned decimal mantissa: `digits [. digits]` or `. digits`. -/
def parseUnsignedDec (l : List Char) : Option Rat :=
  let ip := l.takeWhile Char.isDigit
  match l.dropWhile Char.isDigit with
  | [] => if ip.isEmpty then none else some (digitsToNat ip : Rat)
  | '.' :: rest2 =>
    let fp := rest2.takeWhile Char.isDigit
    if (rest2.dropWhile Char.isDigit).isEmpty then
      if ip.isEmpty && fp.isEmpty then none
      else some ((digitsToNat ip : Rat) + (digitsToNat fp : Rat) / (10 : Rat) ^ fp.length)
    else none
  | _ => none

def parseSignedDec : List Char → Option Rat
  | '+' :: rest => parseUnsignedDec rest
  | '-' :: rest => (parseUnsignedDec rest).map Neg.neg
  | rest => parseUnsignedDec rest

/-- Split a float literal at the first exponent marker `e`/`E`, if any. -/
def splitAtExp (l : List Char) : List Char × Option (List Char) :=
  match l.findIdx? (fun c => c == 'e' || c == 'E') with
  | none => (l, none)
  | some i => (l.take i, some (l.drop (i + 1)))

/-- `float(s)` on an already-stripped character list (finite decimal fragment). -/
def pyFloatOfChars (l : List Char) : Option Rat :=
  match splitAtExp l with
  | (mant, none) => parseSignedDec mant
  | (mant, some ex) =>
    match parseSignedDec mant, pyIntOfChars ex with
    | some m, some e => some (m * (10 : Rat) ^ e)
    | _, _ => none

/-- CPython `float(value)`: surrounding whitespace is ignored, failures are `none`. -/
def pyFloat (s : String) : Option Rat := pyFloatOfChars (pystripList s.data)

/-! ## The lenient coercion helpers of `process_csv_file` (src/main.py 682-695).

`safe_float` / `safe_int` / `safe_str` are the frequency-branch helpers; the
location and antenna branches inline the identical
`cast(value) if value.strip() else None` / `except ValueError: None` pattern.
For a Python string `value`, the guard `value and value.strip()` is falsy
exactly when `pystrip value = ""`. -/

def safe_float (value : String) : Option Rat :=
  if pystrip value = "" then none else pyFloat value

def safe_int (value : String) : Option Int :=
  if pystrip value = "" then none else pyInt value

def safe_str (value : String) : Option String :=
  if pystrip value = "" then none else some (pystrip value)

/-! ## SQLite values, rows and `INSERT OR REPLACE` -/

inductive SqlValue where
  | null : SqlValue
  | text (s : String) : SqlValue
  | int (i : Int) : SqlValue
  | real (q : Rat) : SqlValue
deriving DecidableEq

abbrev SqlRow := List SqlValue

abbrev SqlTable := List SqlRow

/-- Column `i` of a row (out-of-range reads as NULL; never exercised on
rows built by this program, whose lengths match their tables). -/
def rowVal (r : SqlRow) (i : Nat) : SqlValue := r.getD i SqlValue.null

/-- SQL equality as used by UNIQUE indexes: NULL is distinct from everything,
including another NULL. -/
def sqlEqNN (a b : SqlValue) : Bool :=
  match a, b with
  | SqlValue.null, _ => false
  | _, SqlValue.null => false
  | a, b => a == b

/-- Two rows collide on a UNIQUE index over columns `key` iff every indexed
column pair is non-NULL and equal. -/
def keyConflict (key : List Nat) (r₁ r₂ : SqlRow) : Bool :=
  key.all (fun i => sqlEqNN (rowVal r₁ i) (rowVal r₂ i))

/-- `INSERT OR REPLACE`: delete every stored row violating the UNIQUE key
against the incoming row, then append the incoming row. -/
def upsert (key : List Nat) (t : SqlTable) (row : SqlRow) : SqlTable :=
  (t.filter fun r => !(keyConflict key r row)) ++ [row]

/-- `SELECT ... WHERE unique_system_identifier = ?` with a Python string
parameter: the first row whose column 0 is TEXT equal to it. -/
def findByKey0 (t : SqlTable) (k : String) : Option SqlRow :=
  t.find? (fun r => rowVal r 0 == SqlValue.text k)

/-- Python truthiness of a value fetched from SQLite. -/
def sqlTruthy : SqlValue → Bool
  | SqlValue.null => false
  | SqlValue.text s => s ≠ ""
  | SqlValue.int i => i ≠ 0
  | SqlValue.real q => q ≠ 0

/-- `existing_status and existing_status.upper() in ['ACTIVE','GRANTED','LICENSED']`
(src/main.py 607).  Rows written by this program store TEXT or NULL here. -/
def statusSettled : SqlValue → Bool
  | SqlValue.text s =>
      s ≠ "" && (pyupper s == "ACTIVE" || pyupper s == "GRANTED" || pyupper s == "LICENSED")
  | _ => false

/-- `existing_grant and existing_grant.strip()` (src/main.py 608-609). -/
def textNonBlank : SqlValue → Bool
  | SqlValue.text s => s ≠ "" && pystrip s ≠ ""
  | _ => false

/-! ## Row builders -/

/-- `row[start : start+len]` bound as TEXT parameters. -/
def textsOf (row : List String) (start len : Nat) : SqlRow :=
  ((row.drop start).take len).map SqlValue.text

def optStr (o : Option String) : SqlValue := o.elim SqlValue.null SqlValue.text

def optRat (o : Option Rat) : SqlValue := o.elim SqlValue.null SqlValue.real

def optInt (o : Option Int) : SqlValue := o.elim SqlValue.null SqlValue.int

/-- Frequency row, licenses-dataset layout (src/main.py 701-724).
Only applied under the `len(row) >= 18` guard, which makes the
`if len(row) > 15/16/17` accesses total. -/
def freqRowLic (row : List String) : SqlRow :=
  [ optStr (safe_str (row.getD 1 "")),
    optStr (safe_str (row.getD 2 "")),
    optStr (safe_str (row.getD 3 "")),
    optStr (safe_str (row.getD 4 "")),
    optRat (safe_float (row.getD 10 "")),
    SqlValue.null, SqlValue.null, SqlValue.null,
    optStr (safe_str (row.getD 8 "")),
    optRat (safe_float (row.getD 15 "")),
    optRat (safe_float (row.getD 16 "")),
    SqlValue.null,
    optInt (safe_int (row.getD 6 "")),
    optInt (safe_int (row.getD 7 "")),
    optStr (safe_str (row.getD 5 "")),
    optStr (safe_str (row.getD 17 "")) ]

/-- Frequency row, applications-dataset layout (src/main.py 725-748). -/
def freqRowApp (row : List String) : SqlRow :=
  [ optStr (safe_str (row.getD 1 "")),
    SqlValue.null,
    optStr (safe_str (row.getD 2 "")),
    SqlValue.null,
    optRat (safe_float (row.getD 10 "")),
    SqlValue.null, SqlValue.null, SqlValue.null,
    optStr (safe_str (row.getD 8 "")),
    SqlValue.null, SqlValue.null, SqlValue.null,
    optInt (safe_int (row.getD 6 "")),
    optInt (safe_int (row.getD 7 "")),
    SqlValue.null, SqlValue.null ]

/-- Per-position coercion of the location branch (src/main.py 775-791):
position `i` of `processed_row` holds `row[i+1]` coerced as int, float,
or raw-text-or-NULL. -/
def locCoerce (i : Nat) (v : String) : SqlValue :=
  if i ∈ [8, 10, 18, 19, 22, 23, 26, 27, 30, 31] then optInt (safe_int v)
  else if i ∈ [15, 17, 20, 24, 28, 32, 37, 38] then optRat (safe_float v)
  else if pystrip v = "" then SqlValue.null else SqlValue.text v

def locationRow (row : List String) : SqlRow :=
  (List.range 50).map fun i => locCoerce i (row.getD (i + 1) "")

/-- Per-position coercion of the antenna branch (src/main.py 819-834). -/
def antCoerce (i : Nat) (v : String) : SqlValue :=
  if 11 ≤ i ∧ i < 35 then optRat (safe_float v)
  else if i ∈ [6, 7, 8] then optInt (safe_int v)
  else if pystrip v = "" then SqlValue.null else SqlValue.text v

def antennaRow (row : List String) : SqlRow :=
  (List.range 37).map fun i => antCoerce i (row.getD (i + 1) "")

/-! ## Per-record-kind processing steps (table level)

Each branch of `process_csv_file` reads and writes a single table; the steps
are given on that table, returning the new table and the increment of
`records_processed` (0 or 1). -/

/-- The `should_process` decision of the licenses branch (src/main.py 592-612):
for application data, an existing settled row with both dates set resists an
incoming record whose dates are both blank. -/
def licenseShouldProcess (isLicenseData : Bool) (t : SqlTable)
    (usi grant_date expired_date : String) : Bool :=
  if isLicenseData then true
  else
    match findByKey0 t usi with
    | none => true
    | some existing =>
      if statusSettled (rowVal existing 4) && textNonBlank (rowVal existing 6) &&
          textNonBlank (rowVal existing 7) then
        if pystrip grant_date = "" ∧ pystrip expired_date = "" then false else true
      else true

/-- The licenses branch for one parsed line (src/main.py 585-639).
`isLicenseData` is `'licenses' in str(csv_path).lower()`; the grant and
expired dates are `row[7]` and `row[8]`. -/
def licenseStepT (isLicenseData : Bool) (t : SqlTable) (row : List String) :
    SqlTable × Nat :=
  if 59 ≤ row.length then
    if licenseShouldProcess isLicenseData t (row.getD 1 "") (row.getD 7 "")
        (row.getD 8 "") then
      (upsert [0] t (textsOf row 1 58), 1)
    else (t, 0)
  else (t, 0)

/-- The skip decision of the entities branch (src/main.py 653-660): a
truthy stored call sign differing from the incoming (stripped) one is
protected — but only when the incoming stripped identifier is non-empty. -/
def entitySkip (t : SqlTable) (usi call_sign : String) : Bool :=
  (usi != "") &&
    match findByKey0 t usi with
    | some existing =>
        sqlTruthy (rowVal existing 3) && !(rowVal existing 3 == SqlValue.text call_sign)
    | none => false

/-- The entities branch for one parsed line (src/main.py 645-673). -/
def entityStepT (t : SqlTable) (row : List String) : SqlTable × Nat :=
  if 30 ≤ row.length then
    if pystrip (row.getD 4 "") = "" then (t, 0)
    else if entitySkip t (pystrip (row.getD 1 "")) (pystrip (row.getD 4 "")) then (t, 0)
    else (upsert [0] t (textsOf row 1 29), 1)
  else (t, 0)

/-- The frequencies branch for one parsed line (src/main.py 697-759). -/
def frequencyStepT (isLicenseData : Bool) (t : SqlTable) (row : List String) :
    SqlTable × Nat :=
  if 18 ≤ row.length then
    (upsert [0, 12, 13] t (if isLicenseData then freqRowLic row else freqRowApp row), 1)
  else (t, 0)

/-- The locations branch for one parsed line (src/main.py 765-810). -/
def locationStepT (t : SqlTable) (row : List String) : SqlTable × Nat :=
  if 51 ≤ row.length then (upsert [0, 7] t (locationRow row), 1) else (t, 0)

/-- The antennas branch for one parsed line (src/main.py 816-848). -/
def antennaStepT (t : SqlTable) (row : List String) : SqlTable × Nat :=
  if 38 ≤ row.length then (upsert [0, 5, 6] t (antennaRow row), 1) else (t, 0)

/-- The application-purpose branch for one parsed line (src/main.py 854-863):
`row[1:8]` is bound raw, with no per-field coercion. -/
def purposeStepT (t : SqlTable) (row : List String) : SqlTable × Nat :=
  if 8 ≤ row.length then (upsert [0, 4] t (textsOf row 1 7), 1) else (t, 0)

/-! ## The store and `process_csv_file` at the database level -/

structure DB where
  licenses : SqlTable
  entities : SqlTable
  frequencies : SqlTable
  locations : SqlTable
  antennas : SqlTable
  purposes : SqlTable
deriving DecidableEq

def emptyDB : DB := ⟨[], [], [], [], [], []⟩

/-- The `table_name` argument of `process_csv_file` (the `file_mappings`
values of src/main.py 894-901). -/
inductive TableName where
  | licenses | entities | frequencies | locations | antennas | application_purpose
deriving DecidableEq

/-- Minimum field counts (including the record-type tag) per branch of
`process_csv_file`. -/
def minFields : TableName → Nat
  | TableName.licenses => 59
  | TableName.entities => 30
  | TableName.frequencies => 18
  | TableName.locations => 51
  | TableName.antennas => 38
  | TableName.application_purpose => 8

/-- One line of `process_csv_file`, dispatched to its branch.  Each branch
touches exactly one table of the store. -/
def recordStep (tn : TableName) (isLicenseData : Bool) (db : DB) (row : List String) :
    DB × Nat :=
  match tn with
  | TableName.licenses =>
      let p := licenseStepT isLicenseData db.licenses row
      ({ db with licenses := p.1 }, p.2)
  | TableName.entities =>
      let p := entityStepT db.entities row
      ({ db with entities := p.1 }, p.2)
  | TableName.frequencies =>
      let p := frequencyStepT isLicenseData db.frequencies row
      ({ db with frequencies := p.1 }, p.2)
  | TableName.locations =>
      let p := locationStepT db.locations row
      ({ db with locations := p.1 }, p.2)
  | TableName.antennas =>
      let p := antennaStepT db.antennas row
      ({ db with antennas := p.1 }, p.2)
  | TableName.application_purpose =>
      let p := purposeStepT db.purposes row
      ({ db with purposes := p.1 }, p.2)

/-- `process_csv_file` over the parsed lines of one file (src/main.py 569-874).
Returns the updated store and `records_processed`. -/
def processLines (tn : TableName) (isLicenseData : Bool) (db : DB) :
    List (List String) → DB × Nat
  | [] => (db, 0)
  | row :: rest =>
    let p := recordStep tn isLicenseData db row
    let q := processLines tn isLicenseData p.1 rest
    (q.1, p.2 + q.2)

/-- `process_csv_file` with a per-line store-failure oracle: a line flagged
`true` models `cursor.execute` raising `sqlite3.Error` for that record, which
the per-record `except` swallows after logging (src/main.py 640-641, 674-675,
760-761, 811-812, 849-850, 864-865): the store is unchanged and
`records_processed` is not incremented.  (For a line on which no insert is
attempted the flag is vacuous: the outcome coincides either way.) -/
def processLinesF (tn : TableName) (isLicenseData : Bool) (db : DB) :
    List (List String × Bool) → DB × Nat
  | [] => (db, 0)
  | (row, storeFails) :: rest =>
    let p := if storeFails then (db, 0) else recordStep tn isLicenseData db row
    let q := processLinesF tn isLicenseData p.1 rest
    (q.1, p.2 + q.2)

/-- One flat file of a pipeline run: the branch it is dispatched to, the
dataset flag (`'licenses' in str(csv_path).lower()`), and its parsed lines. -/
structure DatFile where
  tn : TableName
  isLicenseData : Bool
  lines : List (List String)

/-- The file-processing part of one pipeline run: the `.dat` files of both
archives in dispatch order (src/main.py 903-909 and 930-936). -/
def runFiles (db : DB) : List DatFile → DB
  | [] => db
  | f :: rest => runFiles (processLines f.tn f.isLicenseData db f.lines).1 rest

/-! ## Transport (`download_file_with_curl`, src/main.py 102-168)

One loop iteration is abstracted by an `Attempt`: whether `curl` exited 0,
and whether the destination file exists and its size, observed after the
transfer.  `download_file` (src/main.py 491-551) follows the identical
retry/backoff/verification skeleton over `requests`. -/

structure Attempt where
  curlOk : Bool
  fileExists : Bool
  fileSize : Nat

/-- The attempt is accepted: the transport reported success *and* the
destination file exists with non-zero size (src/main.py 151-153). -/
def attemptAccepted (a : Attempt) : Bool :=
  a.curlOk && a.fileExists && decide (0 < a.fileSize)

/-- The wait inserted before attempt `idx` (0-based):
`2 ** attempt * 60` seconds for retries, none before the first attempt
(src/main.py 119-124). -/
def waitBefore (idx : Nat) : Nat := if 0 < idx then 2 ^ idx * 60 else 0

/-- The retry loop from attempt `idx` on: returns the index of the accepted
attempt (standing for the returned file path; `none` models returning `None`)
and the total seconds slept.  `curlAvail` is `shutil.which('curl')`,
checked on every iteration after the wait (src/main.py 129-131). -/
def dlAux (curlAvail : Bool) : List Attempt → Nat → Nat → Option Nat × Nat
  | [], _, acc => (none, acc)
  | a :: rest, idx, acc =>
    let acc' := acc + waitBefore idx
    if !curlAvail then (none, acc')
    else if attemptAccepted a then (some idx, acc')
    else dlAux curlAvail rest (idx + 1) acc'

/-- `download_file_with_curl` with `retry_count = attempts.length`. -/
def download_file_with_curl (curlAvail : Bool) (attempts : List Attempt) :
    Option Nat × Nat :=
  dlAux curlAvail attempts 0 0

/-! ## The run orchestrator (`download_and_process`, src/main.py 876-975) -/

/-- One row of `download_history` as inserted by `download_and_process`. -/
structure HistoryRow where
  file_type : String
  file_size : Option Nat
  records_processed : Nat
  success : Bool
  error_message : Option String
deriving DecidableEq

/-- The externally observable behaviour of one `download_and_process` run.
`licDataset` / `appDataset` are `none` when the dataset's fetch (or
extraction) failed — an absorbed failure, not an exception — and otherwise
carry the archive's byte size and the records processed from its files.
`crashAfterFirst` injects an exception escaping into the run-level `except`
after dataset A is fully processed (e.g. an `OSError` from
`self.download_dir.mkdir` at the start of the second
`download_file_with_curl` call, src/main.py 117). -/
structure PipeWorld where
  licDataset : Option (Nat × Nat)
  crashAfterFirst : Option String
  appDataset : Option (Nat × Nat)

/-- `download_and_process`: returns the boolean result, the history rows
appended by this run, and the number of records committed to the store
during the run (commits before a crash persist, src/main.py §5).
On the normal path one row `('LM', total_bytes, total_records, 1, NULL)` is
inserted (src/main.py 949-956); on the exception path one row
`('LM', NULL, 0, 0, error)` — the literal `0` for `records_processed` and no
`file_size` value at all (src/main.py 966-973). -/
def download_and_process (w : PipeWorld) : Bool × List HistoryRow × Nat :=
  let recA := (w.licDataset.map Prod.snd).getD 0
  match w.crashAfterFirst with
  | some msg => (false, [⟨"LM", none, 0, false, some msg⟩], recA)
  | none =>
    let recB := (w.appDataset.map Prod.snd).getD 0
    let bytes := (w.licDataset.map Prod.fst).getD 0 + (w.appDataset.map Prod.fst).getD 0
    (true, [⟨"LM", some bytes, recA + recB, true, none⟩], recA + recB)

/-! ## Basic lemmas about `pystrip` -/

theorem pystripList_eq_rdropWhile (l : List Char) :
    pystripList l = List.rdropWhile isPySpace (List.dropWhile isPySpace l) := by
  simp [pystripList, List.rdropWhile]

theorem dropWhile_pystripList (l : List Char) :
    List.dropWhile isPySpace (pystripList l) = pystripList l := by
  rw [pystripList_eq_rdropWhile]
  have hmm : List.dropWhile isPySpace (List.dropWhile isPySpace l) =
      List.dropWhile isPySpace l := List.dropWhile_idempotent _ _
  rcases List.rdropWhile_prefix isPySpace (List.dropWhile isPySpace l) with ⟨tail, htail⟩
  rcases hs : List.rdropWhile isPySpace (List.dropWhile isPySpace l) with _ | ⟨c, rest⟩
  · simp
  rw [hs] at htail
  have hc : isPySpace c = false := by
    by_contra hcc
    rw [Bool.not_eq_false] at hcc
    have hdw : List.dropWhile isPySpace (List.dropWhile isPySpace l) =
        List.dropWhile isPySpace (rest ++ tail) := by
      rw [← htail]; simp [List.dropWhile_cons, hcc]
    have hlen := congrArg List.length (hmm.symm.trans hdw)
    have hle := List.Sublist.length_le (List.dropWhile_sublist (l := rest ++ tail) isPySpace)
    rw [← htail] at hlen
    simp only [List.cons_append, List.length_cons, List.length_append] at hlen hle
    omega
  simp [List.dropWhile_cons, hc]

theorem pystripList_idem (l : List Char) :
    pystripList (pystripList l) = pystripList l := by
  rw [pystripList_eq_rdropWhile (pystripList l), dropWhile_pystripList,
    pystripList_eq_rdropWhile l, List.rdropWhile_idempotent]

theorem pystrip_idem (s : String) : pystrip (pystrip s) = pystrip s := by
  simp [pystrip, pystripList_idem]

theorem pystrip_empty : pystrip "" = "" := rfl

/-! ## Lemmas about SQL values, key conflicts and `upsert` -/

theorem sqlEqNN_iff (a b : SqlValue) :
    sqlEqNN a b = true ↔ a ≠ SqlValue.null ∧ b ≠ SqlValue.null ∧ a = b := by
  cases a <;> cases b <;> simp [sqlEqNN]

theorem sqlEqNN_symm (a b : SqlValue) : sqlEqNN a b = sqlEqNN b a := by
  cases a <;> cases b <;> simp [sqlEqNN, eq_comm]

theorem sqlEqNN_trans {a b c : SqlValue} (h₁ : sqlEqNN a b = true)
    (h₂ : sqlEqNN b c = true) : sqlEqNN a c = true := by
  rw [sqlEqNN_iff] at h₁ h₂ ⊢
  exact ⟨h₁.1, h₂.2.1, h₁.2.2.trans h₂.2.2⟩

theorem keyConflict_iff (key : List Nat) (r₁ r₂ : SqlRow) :
    keyConflict key r₁ r₂ = true ↔
      ∀ i ∈ key, sqlEqNN (rowVal r₁ i) (rowVal r₂ i) = true := by
  simp [keyConflict, List.all_eq_true]

theorem keyConflict_symm (key : List Nat) (r₁ r₂ : SqlRow) :
    keyConflict key r₁ r₂ = keyConflict key r₂ r₁ := by
  simp only [keyConflict]
  congr 1
  funext i
  rw [sqlEqNN_symm]

theorem keyConflict_trans {key : List Nat} {r₁ r₂ r₃ : SqlRow}
    (h₁ : keyConflict key r₁ r₂ = true) (h₂ : keyConflict key r₂ r₃ = true) :
    keyConflict key r₁ r₃ = true := by
  rw [keyConflict_iff] at h₁ h₂ ⊢
  exact fun i hi => sqlEqNN_trans (h₁ i hi) (h₂ i hi)

/-- The key tuple of `row` (fully non-NULL) is present in table `t`. -/
def HasKey (key : List Nat) (t : SqlTable) (row : SqlRow) : Prop :=
  ∃ r ∈ t, keyConflict key r row = true

/-- The invariant maintained by a SQLite UNIQUE index over `key`:
no two stored rows collide. -/
def SqlUnique (key : List Nat) (t : SqlTable) : Prop :=
  t.Pairwise fun a b => keyConflict key a b = false

theorem hasKey_upsert_iff (key : List Nat) (t : SqlTable) (new row : SqlRow) :
    HasKey key (upsert key t new) row ↔
      keyConflict key new row = true ∨ HasKey key t row := by
  constructor
  · rintro ⟨r, hr, hconf⟩
    rw [upsert, List.mem_append] at hr
    rcases hr with hr | hr
    · exact Or.inr ⟨r, (List.mem_filter.mp hr).1, hconf⟩
    · simp only [List.mem_singleton] at hr
      subst hr; exact Or.inl hconf
  · rintro (h | ⟨r, hr, hconf⟩)
    · exact ⟨new, by simp [upsert], h⟩
    · by_cases hc : keyConflict key r new = true
      · exact ⟨new, by simp [upsert],
          keyConflict_trans ((keyConflict_symm key r new) ▸ hc) hconf⟩
      · refine ⟨r, ?_, hconf⟩
        simp only [upsert, List.mem_append, List.mem_filter]
        exact Or.inl ⟨hr, by simp [hc]⟩

theorem hasKey_upsert_of_hasKey {key : List Nat} {t : SqlTable} {row : SqlRow}
    (new : SqlRow) (h : HasKey key t row) : HasKey key (upsert key t new) row :=
  (hasKey_upsert_iff key t new row).mpr (Or.inr h)

theorem length_upsert (key : List Nat) (t : SqlTable) (new : SqlRow) :
    (upsert key t new).length = (t.filter fun r => !(keyConflict key r new)).length + 1 := by
  simp [upsert]

theorem length_upsert_of_hasKey {key : List Nat} {t : SqlTable} {new : SqlRow}
    (hu : SqlUnique key t) (hk : HasKey key t new) :
    (upsert key t new).length = t.length := by
  rw [length_upsert]
  rcases hk with ⟨w, hw, hwc⟩
  have hnw : keyConflict key new w = true := by rw [keyConflict_symm]; exact hwc
  induction t with
  | nil => cases hw
  | cons h tl ih =>
    have hu' : (∀ a ∈ tl, keyConflict key h a = false) ∧ SqlUnique key tl := by
      rw [SqlUnique, List.pairwise_cons] at hu; exact hu
    rcases List.mem_cons.mp hw with rfl | hwtl
    · have hfil : tl.filter (fun r => !(keyConflict key r new)) = tl := by
        rw [List.filter_eq_self]
        intro x hx
        have hxw : keyConflict key x w = false := by
          rw [keyConflict_symm]; exact hu'.1 x hx
        cases hkc : keyConflict key x new with
        | false => simp
        | true => exact absurd (keyConflict_trans hkc hnw) (by simp [hxw])
      simp [List.filter_cons, hwc, hfil]
    · have hhn : keyConflict key h new = false := by
        by_contra hc
        rw [Bool.not_eq_false] at hc
        exact absurd (keyConflict_trans hc hnw) (by simp [hu'.1 w hwtl])
      have ihr := ih hu'.2 hwtl
      simp only [List.filter_cons, hhn, Bool.not_false, if_true, List.length_cons]
      omega

theorem length_upsert_of_not_hasKey {key : List Nat} {t : SqlTable} {new : SqlRow}
    (hk : ¬ HasKey key t new) : (upsert key t new).length = t.length + 1 := by
  have hfil : t.filter (fun r => !(keyConflict key r new)) = t := by
    rw [List.filter_eq_self]
    intro x hx
    by_contra hxn
    simp only [Bool.not_eq_true', Bool.not_eq_false] at hxn
    exact hk ⟨x, hx, hxn⟩
  simp [upsert, hfil]

theorem sqlUnique_upsert {key : List Nat} {t : SqlTable} (new : SqlRow)
    (hu : SqlUnique key t) : SqlUnique key (upsert key t new) := by
  rw [upsert, SqlUnique, List.pairwise_append]
  refine ⟨hu.sublist (List.filter_sublist t), by simp, ?_⟩
  intro a ha b hb
  simp only [List.mem_singleton] at hb
  subst hb
  have := (List.mem_filter.mp ha).2
  simpa using this

/-! ## Lemmas about `findByKey0` and `upsert` -/

theorem find?_filter_of_imp {α : Type} (p q : α → Bool) :
    ∀ l : List α, (∀ a ∈ l, p a = true → q a = true) →
      (l.filter q).find? p = l.find? p := by
  intro l
  induction l with
  | nil => intro _; rfl
  | cons a tl ih =>
    intro h
    have ihr := ih fun x hx => h x (List.mem_cons_of_mem a hx)
    cases hpa : p a with
    | true =>
      have hqa := h a (List.mem_cons_self a tl) hpa
      simp [List.filter_cons, hqa, List.find?_cons, hpa]
    | false =>
      cases hqa : q a with
      | true => simp [List.filter_cons, hqa, List.find?_cons, hpa, ihr]
      | false => simp [List.filter_cons, hqa, List.find?_cons, hpa, ihr]

theorem findByKey0_some {t : SqlTable} {u : String} {r : SqlRow}
    (h : findByKey0 t u = some r) : r ∈ t ∧ rowVal r 0 = SqlValue.text u := by
  refine ⟨List.mem_of_find?_eq_some h, ?_⟩
  have := List.find?_some h
  simpa using this

/-- An upsert whose incoming row lives under a different key-0 value leaves
`findByKey0 _ u` unchanged. -/
theorem findByKey0_upsert_other {t : SqlTable} {new : SqlRow} {u : String}
    (h : rowVal new 0 ≠ SqlValue.text u) :
    findByKey0 (upsert [0] t new) u = findByKey0 t u := by
  rw [findByKey0, upsert, List.find?_append]
  have h1 : List.find? (fun r => rowVal r 0 == SqlValue.text u) [new] = none := by
    simp [List.find?_cons, h]
  rw [h1]
  have h2 : (List.filter (fun r => !(keyConflict [0] r new)) t).find?
      (fun r => rowVal r 0 == SqlValue.text u) =
      t.find? (fun r => rowVal r 0 == SqlValue.text u) := by
    apply find?_filter_of_imp
    intro a _ hpa
    simp only [beq_iff_eq] at hpa
    have : keyConflict [0] a new = false := by
      cases hc : keyConflict [0] a new with
      | false => rfl
      | true =>
        rw [keyConflict_iff] at hc
        have := hc 0 (by simp)
        rw [sqlEqNN_iff] at this
        exact absurd (hpa ▸ this.2.2).symm h
    simp [this]
  rw [h2]
  cases hfind : t.find? (fun r => rowVal r 0 == SqlValue.text u) <;> simp [findByKey0, hfind]

/-- An upsert whose incoming row lives under key-0 value `u` makes it the row
returned by `findByKey0 _ u`. -/
theorem findByKey0_upsert_self {t : SqlTable} {new : SqlRow} {u : String}
    (h : rowVal new 0 = SqlValue.text u) :
    findByKey0 (upsert [0] t new) u = some new := by
  rw [findByKey0, upsert, List.find?_append]
  have h2 : (List.filter (fun r => !(keyConflict [0] r new)) t).find?
      (fun r => rowVal r 0 == SqlValue.text u) = none := by
    rw [List.find?_eq_none]
    intro x hx
    have hxk := (List.mem_filter.mp hx).2
    simp only [Bool.not_eq_true', Bool.not_eq_true] at hxk
    intro hcontra
    simp only [beq_iff_eq] at hcontra
    have : keyConflict [0] x new = true := by
      rw [keyConflict_iff]
      intro i hi
      simp only [List.mem_singleton] at hi
      subst hi
      rw [sqlEqNN_iff]
      exact ⟨by simp [hcontra], by simp [h], by rw [hcontra, h]⟩
    simp [this] at hxk
  rw [h2]
  simp [List.find?_cons, h]

/-! ## Reading columns of rows built from raw lines -/

theorem rowVal_textsOf (row : List String) (start len i : Nat) (h1 : i < len)
    (h2 : start + i < row.length) :
    rowVal (textsOf row start len) i = SqlValue.text (row.getD (start + i) "") := by
  rw [rowVal, textsOf, List.getD_eq_getElem?_getD, List.getElem?_map, List.getElem?_take]
  rw [if_pos h1, List.getElem?_drop, List.getElem?_eq_getElem h2]
  simp [List.getD_eq_getElem?_getD, List.getElem?_eq_getElem h2]

/-! ## Generic single-table processing and per-table projections

Each branch of `process_csv_file` reads and writes a single table, so a whole
pipeline run acts on each table as a fold of that table's step over the lines
dispatched to it, in order. -/

def procT {α : Type} (step : SqlTable → α → SqlTable × Nat) (t : SqlTable) :
    List α → SqlTable × Nat
  | [] => (t, 0)
  | a :: rest =>
    let p := step t a
    let q := procT step p.1 rest
    (q.1, p.2 + q.2)

def tableOf (tn : TableName) (db : DB) : SqlTable :=
  match tn with
  | TableName.licenses => db.licenses
  | TableName.entities => db.entities
  | TableName.frequencies => db.frequencies
  | TableName.locations => db.locations
  | TableName.antennas => db.antennas
  | TableName.application_purpose => db.purposes

/-- The table-level step of each branch, applied to a line tagged with its
file's dataset flag. -/
def stepOf (tn : TableName) : SqlTable → Bool × List String → SqlTable × Nat :=
  match tn with
  | TableName.licenses => fun t p => licenseStepT p.1 t p.2
  | TableName.entities => fun t p => entityStepT t p.2
  | TableName.frequencies => fun t p => frequencyStepT p.1 t p.2
  | TableName.locations => fun t p => locationStepT t p.2
  | TableName.antennas => fun t p => antennaStepT t p.2
  | TableName.application_purpose => fun t p => purposeStepT t p.2

/-- The UNIQUE-key column indices of each table (src/main.py 208-480). -/
def keyOf : TableName → List Nat
  | TableName.licenses => [0]
  | TableName.entities => [0]
  | TableName.frequencies => [0, 12, 13]
  | TableName.locations => [0, 7]
  | TableName.antennas => [0, 5, 6]
  | TableName.application_purpose => [0, 4]

/-- The stored row each branch builds from a tagged line. -/
def buildOf (tn : TableName) (p : Bool × List String) : SqlRow :=
  match tn with
  | TableName.licenses => textsOf p.2 1 58
  | TableName.entities => textsOf p.2 1 29
  | TableName.frequencies => if p.1 then freqRowLic p.2 else freqRowApp p.2
  | TableName.locations => locationRow p.2
  | TableName.antennas => antennaRow p.2
  | TableName.application_purpose => textsOf p.2 1 7

/-- The tagged lines a run dispatches to table `tn`, in order. -/
def linesOf (tn : TableName) : List DatFile → List (Bool × List String)
  | [] => []
  | f :: rest =>
    (if f.tn = tn then f.lines.map (fun r => (f.isLicenseData, r)) else []) ++
      linesOf tn rest

theorem tableOf_recordStep (tn tn' : TableName) (flag : Bool) (db : DB)
    (row : List String) :
    tableOf tn (recordStep tn' flag db row).1 =
      if tn' = tn then (stepOf tn (tableOf tn db) (flag, row)).1 else tableOf tn db := by
  cases tn' <;> cases tn <;> simp [recordStep, tableOf, stepOf]

theorem tableOf_processLines (tn tn' : TableName) (flag : Bool) (db : DB)
    (lines : List (List String)) :
    tableOf tn (processLines tn' flag db lines).1 =
      if tn' = tn then
        (procT (stepOf tn) (tableOf tn db) (lines.map fun r => (flag, r))).1
      else tableOf tn db := by
  induction lines generalizing db with
  | nil => by_cases h : tn' = tn <;> simp [processLines, procT, h]
  | cons row rest ih =>
    have hstep : (processLines tn' flag db (row :: rest)).1 =
        (processLines tn' flag (recordStep tn' flag db row).1 rest).1 := rfl
    by_cases h : tn' = tn
    · subst h
      rw [if_pos rfl, List.map_cons]
      have hp : (procT (stepOf tn') (tableOf tn' db)
            ((flag, row) :: rest.map fun r => (flag, r))).1 =
          (procT (stepOf tn') (stepOf tn' (tableOf tn' db) (flag, row)).1
            (rest.map fun r => (flag, r))).1 := rfl
      rw [hp, hstep, ih, if_pos rfl, tableOf_recordStep, if_pos rfl]
    · rw [if_neg h, hstep, ih, if_neg h, tableOf_recordStep, if_neg h]

theorem procT_fst_append {α : Type} (step : SqlTable → α → SqlTable × Nat)
    (t : SqlTable) (l₁ l₂ : List α) :
    (procT step t (l₁ ++ l₂)).1 = (procT step (procT step t l₁).1 l₂).1 := by
  induction l₁ generalizing t with
  | nil => simp [procT]
  | cons a rest ih => simp [procT, ih]

theorem tableOf_runFiles (tn : TableName) (db : DB) (files : List DatFile) :
    tableOf tn (runFiles db files) =
      (procT (stepOf tn) (tableOf tn db) (linesOf tn files)).1 := by
  induction files generalizing db with
  | nil => simp [runFiles, procT, linesOf]
  | cons f rest ih =>
    rw [runFiles, ih, linesOf, procT_fst_append, tableOf_processLines]
    by_cases h : f.tn = tn
    · rw [if_pos h, if_pos h]
    · rw [if_neg h, if_neg h]
      rfl

/-! ## Generic two-run row-count idempotence

A table step that either leaves the table alone or upserts a line-determined
row preserves the UNIQUE invariant.  If after a first pass every line either
certifies a stable skip (predicate `P`) or has its key present, then a second
identical pass only replaces rows, so the row count is unchanged. -/

section RunIdempotence

variable {α : Type} {step : SqlTable → α → SqlTable × Nat}

theorem procT_preserves {P : α → SqlTable → Prop}
    (step : SqlTable → α → SqlTable × Nat)
    (hpres : ∀ t b a, P a t → P a (step t b).1) :
    ∀ (L : List α) (t : SqlTable) (a : α), P a t → P a (procT step t L).1 := by
  intro L
  induction L with
  | nil => intro t a h; exact h
  | cons b rest ih => intro t a h; exact ih _ _ (hpres t b a h)

theorem procT_sqlUnique (key : List Nat) (B : α → SqlRow)
    (step : SqlTable → α → SqlTable × Nat)
    (hshape : ∀ t a, step t a = (t, 0) ∨ step t a = (upsert key t (B a), 1)) :
    ∀ (L : List α) (t : SqlTable), SqlUnique key t → SqlUnique key (procT step t L).1 := by
  intro L
  induction L with
  | nil => intro t hu; exact hu
  | cons b rest ih =>
    intro t hu
    have h1 : (procT step t (b :: rest)).1 = (procT step (step t b).1 rest).1 := rfl
    rw [h1]
    rcases hshape t b with hsk | hwr
    · rw [hsk]; exact ih t hu
    · rw [hwr]; exact ih _ (sqlUnique_upsert _ hu)

theorem run2_length {P : α → SqlTable → Prop} (key : List Nat) (B : α → SqlRow)
    (step : SqlTable → α → SqlTable × Nat)
    (hshape : ∀ t a, step t a = (t, 0) ∨ step t a = (upsert key t (B a), 1))
    (hP : ∀ t a, P a t → step t a = (t, 0) ∨ HasKey key t (B a))
    (hpres : ∀ t b a, P a t → P a (step t b).1) :
    ∀ (L : List α) (t : SqlTable), SqlUnique key t → (∀ a ∈ L, P a t) →
      (procT step t L).1.length = t.length := by
  intro L
  induction L with
  | nil => intro t _ _; rfl
  | cons b rest ih =>
    intro t hu hL
    have hb := hL b (List.mem_cons_self b rest)
    have h1 : (procT step t (b :: rest)).1 = (procT step (step t b).1 rest).1 := rfl
    rw [h1]
    have hrest : ∀ a ∈ rest, P a t := fun a ha => hL a (List.mem_cons_of_mem b ha)
    rcases hP t b hb with hskip | hkey
    · rw [hskip]
      exact ih t hu hrest
    · rcases hshape t b with hskip | hwrite
      · rw [hskip]
        exact ih t hu hrest
      · rw [hwrite]
        have hlen : (upsert key t (B b)).length = t.length :=
          length_upsert_of_hasKey hu hkey
        have hu' : SqlUnique key (upsert key t (B b)) := sqlUnique_upsert _ hu
        have hL' : ∀ a ∈ rest, P a (upsert key t (B b)) := by
          intro a ha
          have := hpres t b a (hrest a ha)
          rwa [hwrite] at this
        rw [ih _ hu' hL', hlen]

theorem run1_establish {P : α → SqlTable → Prop} {A : α → Prop}
    (key : List Nat) (B : α → SqlRow) (step : SqlTable → α → SqlTable × Nat)
    (hshape : ∀ t a, step t a = (t, 0) ∨ step t a = (upsert key t (B a), 1))
    (hskip : ∀ t a, A a → step t a = (t, 0) → P a t)
    (hself : ∀ t a, A a → step t a = (upsert key t (B a), 1) →
      keyConflict key (B a) (B a) = true)
    (hpres : ∀ t b a, P a t → P a (step t b).1)
    (hPkey : ∀ t a, HasKey key t (B a) → P a t) :
    ∀ (L : List α) (t : SqlTable), (∀ a ∈ L, A a) → ∀ a ∈ L, P a (procT step t L).1 := by
  intro L
  induction L with
  | nil => intro t _ a ha; cases ha
  | cons b rest ih =>
    intro t hA a ha
    have h1 : (procT step t (b :: rest)).1 = (procT step (step t b).1 rest).1 := rfl
    rw [h1]
    rcases List.mem_cons.mp ha with rfl | ha'
    · have hAb := hA a (List.mem_cons_self a rest)
      rcases hshape t a with hsk | hwr
      · have hPb : P a t := hskip t a hAb hsk
        have := procT_preserves step hpres rest (step t a).1 a (by rw [hsk]; exact hPb)
        exact this
      · have hconf := hself t a hAb hwr
        have hkey : HasKey key (upsert key t (B a)) (B a) :=
          ⟨B a, by simp [upsert], hconf⟩
        have hPb : P a (step t a).1 := by rw [hwr]; exact hPkey _ a hkey
        exact procT_preserves step hpres rest (step t a).1 a hPb
    · exact ih (step t b).1 (fun x hx => hA x (List.mem_cons_of_mem b hx)) a ha'

theorem run_twice_length {P : α → SqlTable → Prop} {A : α → Prop}
    (key : List Nat) (B : α → SqlRow) (step : SqlTable → α → SqlTable × Nat)
    (hshape : ∀ t a, step t a = (t, 0) ∨ step t a = (upsert key t (B a), 1))
    (hP : ∀ t a, P a t → step t a = (t, 0) ∨ HasKey key t (B a))
    (hpres : ∀ t b a, P a t → P a (step t b).1)
    (hskip : ∀ t a, A a → step t a = (t, 0) → P a t)
    (hself : ∀ t a, A a → step t a = (upsert key t (B a), 1) →
      keyConflict key (B a) (B a) = true)
    (hPkey : ∀ t a, HasKey key t (B a) → P a t)
    (L : List α) (t : SqlTable) (hu : SqlUnique key t) (hA : ∀ a ∈ L, A a) :
    (procT step (procT step t L).1 L).1.length = (procT step t L).1.length :=
  run2_length key B step hshape hP hpres L _
    (procT_sqlUnique key B step hshape L t hu)
    (run1_establish key B step hshape hskip hself hpres hPkey L t hA)

end RunIdempotence

/-! ## Characterisations of the per-branch decisions -/

theorem stepOf_short (tn : TableName) (t : SqlTable) (p : Bool × List String)
    (h : p.2.length < minFields tn) : stepOf tn t p = (t, 0) := by
  cases tn with
  | licenses =>
    simp only [minFields] at h
    simp [stepOf, licenseStepT, Nat.not_le.mpr h]
  | entities =>
    simp only [minFields] at h
    simp [stepOf, entityStepT, Nat.not_le.mpr h]
  | frequencies =>
    simp only [minFields] at h
    simp [stepOf, frequencyStepT, Nat.not_le.mpr h]
  | locations =>
    simp only [minFields] at h
    simp [stepOf, locationStepT, Nat.not_le.mpr h]
  | antennas =>
    simp only [minFields] at h
    simp [stepOf, antennaStepT, Nat.not_le.mpr h]
  | application_purpose =>
    simp only [minFields] at h
    simp [stepOf, purposeStepT, Nat.not_le.mpr h]

theorem stepOf_shape (tn : TableName) (t : SqlTable) (p : Bool × List String) :
    stepOf tn t p = (t, 0) ∨ stepOf tn t p = (upsert (keyOf tn) t (buildOf tn p), 1) := by
  cases tn with
  | licenses =>
    simp only [stepOf, keyOf, buildOf, licenseStepT]
    split
    · split
      · exact Or.inr rfl
      · exact Or.inl rfl
    · exact Or.inl rfl
  | entities =>
    simp only [stepOf, keyOf, buildOf, entityStepT]
    split
    · split
      · exact Or.inl rfl
      · split
        · exact Or.inl rfl
        · exact Or.inr rfl
    · exact Or.inl rfl
  | frequencies =>
    simp only [stepOf, keyOf, buildOf, frequencyStepT]
    split
    · exact Or.inr rfl
    · exact Or.inl rfl
  | locations =>
    simp only [stepOf, keyOf, buildOf, locationStepT]
    split
    · exact Or.inr rfl
    · exact Or.inl rfl
  | antennas =>
    simp only [stepOf, keyOf, buildOf, antennaStepT]
    split
    · exact Or.inr rfl
    · exact Or.inl rfl
  | application_purpose =>
    simp only [stepOf, keyOf, buildOf, purposeStepT]
    split
    · exact Or.inr rfl
    · exact Or.inl rfl

theorem stepOf_write_of_guard_pure (tn : TableName) (t : SqlTable)
    (p : Bool × List String)
    (hpure : tn = TableName.frequencies ∨ tn = TableName.locations ∨
      tn = TableName.antennas ∨ tn = TableName.application_purpose)
    (h : minFields tn ≤ p.2.length) :
    stepOf tn t p = (upsert (keyOf tn) t (buildOf tn p), 1) := by
  rcases hpure with rfl | rfl | rfl | rfl
  · simp only [minFields] at h
    simp [stepOf, frequencyStepT, keyOf, buildOf, h]
  · simp only [minFields] at h
    simp [stepOf, locationStepT, keyOf, buildOf, h]
  · simp only [minFields] at h
    simp [stepOf, antennaStepT, keyOf, buildOf, h]
  · simp only [minFields] at h
    simp [stepOf, purposeStepT, keyOf, buildOf, h]

theorem entitySkip_eq_true_iff (t : SqlTable) (usi cs : String) :
    entitySkip t usi cs = true ↔
      usi ≠ "" ∧ ∃ r, findByKey0 t usi = some r ∧ sqlTruthy (rowVal r 3) = true ∧
        rowVal r 3 ≠ SqlValue.text cs := by
  unfold entitySkip
  cases hf : findByKey0 t usi with
  | none => simp [hf]
  | some r => simp [hf, bne_iff_ne, and_assoc]

theorem licenseShouldProcess_false_iff (isLic : Bool) (t : SqlTable)
    (usi g e : String) :
    licenseShouldProcess isLic t usi g e = false ↔
      isLic = false ∧ ∃ ex, findByKey0 t usi = some ex ∧
        statusSettled (rowVal ex 4) = true ∧ textNonBlank (rowVal ex 6) = true ∧
        textNonBlank (rowVal ex 7) = true ∧ pystrip g = "" ∧ pystrip e = "" := by
  unfold licenseShouldProcess
  cases isLic with
  | true => simp
  | false =>
    cases hf : findByKey0 t usi with
    | none => simp [hf]
    | some ex =>
      simp only [Bool.false_eq_true, if_false, hf]
      split
      · rename_i hsettled
        simp only [Bool.and_eq_true] at hsettled
        split
        · rename_i hdates
          simp [hsettled.1.1, hsettled.1.2, hsettled.2, hdates.1, hdates.2]
        · rename_i hdates
          rw [not_and_or] at hdates
          simp only [Bool.true_eq_false, false_iff]
          rintro ⟨-, ex', hex', -, -, -, hg, he⟩
          rcases hdates with hd | hd <;> exact hd (by assumption)
      · rename_i hsettled
        simp only [Bool.and_eq_true, not_and_or] at hsettled
        simp only [Bool.true_eq_false, false_iff]
        rintro ⟨-, ex', hex', hs, h6, h7, -, -⟩
        cases hex'
        rcases hsettled with (hd | hd) | hd <;> simp [hs, h6, h7] at hd

theorem keyConflict_self_textsOf (row : List String) (start len : Nat)
    (key : List Nat) (h : ∀ i ∈ key, i < len ∧ start + i < row.length) :
    keyConflict key (textsOf row start len) (textsOf row start len) = true := by
  rw [keyConflict_iff]
  intro i hi
  rw [rowVal_textsOf row start len i (h i hi).1 (h i hi).2, sqlEqNN_iff]
  simp

/-- Once a record's incoming call sign is protected against (skip fires), no
later entity step can unprotect it: any write at the same looked-up identifier
must carry the currently stored call sign (up to stripping), which stays
non-empty and different from the protected one. -/
theorem entitySkip_preserved (t : SqlTable) (rowb : List String) (u cs : String)
    (hu : pystrip u = u) (hcs : pystrip cs = cs)
    (h : entitySkip t u cs = true) :
    entitySkip (entityStepT t rowb).1 u cs = true := by
  obtain ⟨hune, r, hfind, htruthy, hneq⟩ := (entitySkip_eq_true_iff t u cs).mp h
  rw [entitySkip_eq_true_iff]
  by_cases h30 : 30 ≤ rowb.length
  · by_cases hcsb : pystrip (rowb.getD 4 "") = ""
    · rw [entityStepT, if_pos h30, if_pos hcsb]
      exact ⟨hune, r, hfind, htruthy, hneq⟩
    · by_cases hskipb :
          entitySkip t (pystrip (rowb.getD 1 "")) (pystrip (rowb.getD 4 "")) = true
      · rw [entityStepT, if_pos h30, if_neg hcsb, if_pos hskipb]
        exact ⟨hune, r, hfind, htruthy, hneq⟩
      · rw [entityStepT, if_pos h30, if_neg hcsb, if_neg hskipb]
        dsimp only
        have hnew0 : rowVal (textsOf rowb 1 29) 0 = SqlValue.text (rowb.getD 1 "") :=
          rowVal_textsOf rowb 1 29 0 (by omega) (by omega)
        have hnew3 : rowVal (textsOf rowb 1 29) 3 = SqlValue.text (rowb.getD 4 "") :=
          rowVal_textsOf rowb 1 29 3 (by omega) (by omega)
        by_cases hkb : rowb.getD 1 "" = u
        · have husib : pystrip (rowb.getD 1 "") = u := by rw [hkb, hu]
          have hskip_decomp := hskipb
          rw [entitySkip_eq_true_iff, husib] at hskip_decomp
          push_neg at hskip_decomp
          have h3 := hskip_decomp hune r hfind htruthy
          refine ⟨hune, textsOf rowb 1 29,
            findByKey0_upsert_self (by rw [hnew0, hkb]), ?_, ?_⟩
          · rw [hnew3]
            have hraw : rowb.getD 4 "" ≠ "" := by
              intro hr
              apply hcsb
              rw [hr]
              exact pystrip_empty
            simp only [sqlTruthy, ne_eq, decide_eq_true_eq]
            exact hraw
          · rw [hnew3]
            intro hcontra
            have hrawcs : rowb.getD 4 "" = cs := by
              simpa using hcontra
            have hstr : pystrip (rowb.getD 4 "") = cs := by rw [hrawcs, hcs]
            exact hneq (by rw [h3, hstr])
        · refine ⟨hune, r, ?_, htruthy, hneq⟩
          have hdiff : rowVal (textsOf rowb 1 29) 0 ≠ SqlValue.text u := by
            rw [hnew0]
            intro hcon
            exact hkb (by simpa using hcon)
          rw [findByKey0_upsert_other hdiff]
          exact hfind
  · rw [entityStepT, if_neg h30]
    exact ⟨hune, r, hfind, htruthy, hneq⟩

/-! ## Per-branch instantiations of the two-run argument -/

/-- After a first pass, each line's key is present (or its write was a stable
skip); `keyP` is the form used for all branches except entities. -/
def keyP (tn : TableName) (p : Bool × List String) (t : SqlTable) : Prop :=
  minFields tn ≤ p.2.length → HasKey (keyOf tn) t (buildOf tn p)

/-- For entities the skip decision consults the *stripped* identifier while
rows are stored under the *raw* one, so a skipped line's key may be absent;
what is stable instead is the skip itself. -/
def entP (p : Bool × List String) (t : SqlTable) : Prop :=
  30 ≤ p.2.length → pystrip (p.2.getD 4 "") ≠ "" →
    (HasKey [0] t (textsOf p.2 1 29) ∨
      entitySkip t (pystrip (p.2.getD 1 "")) (pystrip (p.2.getD 4 "")) = true)

/-- The row built from a line conflicts with itself, i.e. its key fields are
all non-NULL (automatic for the TEXT-keyed branches, an input condition for
the branches whose key fields are coerced numerics). -/
def selfKeyed (tn : TableName) (p : Bool × List String) : Prop :=
  minFields tn ≤ p.2.length →
    keyConflict (keyOf tn) (buildOf tn p) (buildOf tn p) = true

theorem stepOf_write_guard (tn : TableName) (t : SqlTable) (p : Bool × List String)
    (hwr : stepOf tn t p = (upsert (keyOf tn) t (buildOf tn p), 1)) :
    minFields tn ≤ p.2.length := by
  by_contra hg
  rw [stepOf_short tn t p (by omega)] at hwr
  exact absurd (congrArg Prod.snd hwr) (by simp)

theorem hself_generic (tn : TableName) (t : SqlTable) (p : Bool × List String)
    (hA : selfKeyed tn p)
    (hwr : stepOf tn t p = (upsert (keyOf tn) t (buildOf tn p), 1)) :
    keyConflict (keyOf tn) (buildOf tn p) (buildOf tn p) = true :=
  hA (stepOf_write_guard tn t p hwr)

theorem keyP_hP (tn : TableName) (t : SqlTable) (p : Bool × List String)
    (h : keyP tn p t) :
    stepOf tn t p = (t, 0) ∨ HasKey (keyOf tn) t (buildOf tn p) := by
  by_cases hg : minFields tn ≤ p.2.length
  · exact Or.inr (h hg)
  · exact Or.inl (stepOf_short tn t p (by omega))

theorem keyP_pres (tn : TableName) (t : SqlTable) (b p : Bool × List String)
    (h : keyP tn p t) : keyP tn p (stepOf tn t b).1 := by
  intro hg
  rcases stepOf_shape tn t b with hsk | hwr
  · rw [hsk]; exact h hg
  · rw [hwr]; exact hasKey_upsert_of_hasKey _ (h hg)

theorem lic_hskip (t : SqlTable) (p : Bool × List String)
    (hstep : stepOf TableName.licenses t p = (t, 0)) :
    keyP TableName.licenses p t := by
  intro hg
  simp only [minFields] at hg
  simp only [stepOf, licenseStepT, if_pos hg] at hstep
  by_cases hsp : licenseShouldProcess p.1 t (p.2.getD 1 "") (p.2.getD 7 "")
      (p.2.getD 8 "") = true
  · rw [if_pos hsp] at hstep
    exact absurd (congrArg Prod.snd hstep) (by simp)
  · rw [Bool.not_eq_true, licenseShouldProcess_false_iff] at hsp
    obtain ⟨-, ex, hex, -, -, -, -, -⟩ := hsp
    obtain ⟨hmem, hval⟩ := findByKey0_some hex
    refine ⟨ex, hmem, ?_⟩
    simp only [keyOf, buildOf]
    rw [keyConflict_iff]
    intro i hi
    simp only [List.mem_singleton] at hi
    subst hi
    rw [hval, rowVal_textsOf p.2 1 58 0 (by omega) (by omega), sqlEqNN_iff]
    simp

theorem pure_hskip (tn : TableName) (t : SqlTable) (p : Bool × List String)
    (hpure : tn = TableName.frequencies ∨ tn = TableName.locations ∨
      tn = TableName.antennas ∨ tn = TableName.application_purpose)
    (hstep : stepOf tn t p = (t, 0)) : keyP tn p t := by
  intro hg
  rw [stepOf_write_of_guard_pure tn t p hpure hg] at hstep
  exact absurd (congrArg Prod.snd hstep) (by simp)

theorem ent_hP (t : SqlTable) (p : Bool × List String) (h : entP p t) :
    stepOf TableName.entities t p = (t, 0) ∨
      HasKey (keyOf TableName.entities) t (buildOf TableName.entities p) := by
  by_cases hg : 30 ≤ p.2.length
  · by_cases hcs : pystrip (p.2.getD 4 "") = ""
    · left
      show entityStepT t p.2 = (t, 0)
      rw [entityStepT, if_pos hg, if_pos hcs]
    · rcases h hg hcs with hk | hskipb
      · exact Or.inr hk
      · left
        show entityStepT t p.2 = (t, 0)
        rw [entityStepT, if_pos hg, if_neg hcs, if_pos hskipb]
  · exact Or.inl (stepOf_short TableName.entities t p (by simp only [minFields]; omega))

theorem ent_hskip (t : SqlTable) (p : Bool × List String)
    (hstep : stepOf TableName.entities t p = (t, 0)) : entP p t := by
  intro hg hcs
  by_cases hskipb :
      entitySkip t (pystrip (p.2.getD 1 "")) (pystrip (p.2.getD 4 "")) = true
  · exact Or.inr hskipb
  · simp only [stepOf, entityStepT, if_pos hg, if_neg hcs, if_neg hskipb] at hstep
    exact absurd (congrArg Prod.snd hstep) (by simp)

theorem ent_pres (t : SqlTable) (b p : Bool × List String) (h : entP p t) :
    entP p (stepOf TableName.entities t b).1 := by
  intro hg hcs
  rcases h hg hcs with hk | hskipb
  · left
    rcases stepOf_shape TableName.entities t b with hsk | hwr
    · rw [hsk]; exact hk
    · rw [hwr]
      exact hasKey_upsert_of_hasKey _ hk
  · right
    exact entitySkip_preserved t b.2 _ _ (pystrip_idem _) (pystrip_idem _) hskipb

theorem selfKeyed_licenses (p : Bool × List String) : selfKeyed TableName.licenses p := by
  intro hg
  simp only [minFields] at hg
  simp only [keyOf, buildOf]
  refine keyConflict_self_textsOf p.2 1 58 [0] ?_
  intro i hi
  simp only [List.mem_singleton] at hi
  subst hi
  exact ⟨by omega, by omega⟩

theorem selfKeyed_entities (p : Bool × List String) : selfKeyed TableName.entities p := by
  intro hg
  simp only [minFields] at hg
  simp only [keyOf, buildOf]
  refine keyConflict_self_textsOf p.2 1 29 [0] ?_
  intro i hi
  simp only [List.mem_singleton] at hi
  subst hi
  exact ⟨by omega, by omega⟩

theorem selfKeyed_purposes (p : Bool × List String) :
    selfKeyed TableName.application_purpose p := by
  intro hg
  simp only [minFields] at hg
  simp only [keyOf, buildOf]
  refine keyConflict_self_textsOf p.2 1 7 [0, 4] ?_
  intro i hi
  simp only [List.mem_cons, List.not_mem_nil, or_false] at hi
  rcases hi with rfl | rfl
  · exact ⟨by omega, by omega⟩
  · exact ⟨by omega, by omega⟩

/-- Row-count idempotence of a double pass over one table's lines, given the
UNIQUE invariant on the starting table and fully non-NULL key fields for
every sufficiently long line. -/
theorem table_run_twice (tn : TableName) (L : List (Bool × List String))
    (t0 : SqlTable) (hu : SqlUnique (keyOf tn) t0)
    (hA : ∀ p ∈ L, selfKeyed tn p) :
    (procT (stepOf tn) (procT (stepOf tn) t0 L).1 L).1.length =
      (procT (stepOf tn) t0 L).1.length := by
  cases tn with
  | licenses =>
    exact run_twice_length (keyOf TableName.licenses) (buildOf TableName.licenses)
      (stepOf TableName.licenses) (stepOf_shape TableName.licenses)
      (keyP_hP TableName.licenses)
      (fun t b p h => keyP_pres TableName.licenses t b p h)
      (fun t p _ hstep => lic_hskip t p hstep)
      (fun t p hA' hwr => hself_generic TableName.licenses t p hA' hwr)
      (fun t p hk _ => hk)
      L t0 hu hA
  | entities =>
    exact run_twice_length (keyOf TableName.entities) (buildOf TableName.entities)
      (stepOf TableName.entities) (stepOf_shape TableName.entities)
      ent_hP (fun t b p h => ent_pres t b p h)
      (fun t p _ hstep => ent_hskip t p hstep)
      (fun t p hA' hwr => hself_generic TableName.entities t p hA' hwr)
      (fun t p hk _ _ => Or.inl hk)
      L t0 hu hA
  | frequencies =>
    exact run_twice_length (keyOf TableName.frequencies) (buildOf TableName.frequencies)
      (stepOf TableName.frequencies) (stepOf_shape TableName.frequencies)
      (keyP_hP TableName.frequencies)
      (fun t b p h => keyP_pres TableName.frequencies t b p h)
      (fun t p _ hstep => pure_hskip TableName.frequencies t p (Or.inl rfl) hstep)
      (fun t p hA' hwr => hself_generic TableName.frequencies t p hA' hwr)
      (fun t p hk _ => hk)
      L t0 hu hA
  | locations =>
    exact run_twice_length (keyOf TableName.locations) (buildOf TableName.locations)
      (stepOf TableName.locations) (stepOf_shape TableName.locations)
      (keyP_hP TableName.locations)
      (fun t b p h => keyP_pres TableName.locations t b p h)
      (fun t p _ hstep => pure_hskip TableName.locations t p (Or.inr (Or.inl rfl)) hstep)
      (fun t p hA' hwr => hself_generic TableName.locations t p hA' hwr)
      (fun t p hk _ => hk)
      L t0 hu hA
  | antennas =>
    exact run_twice_length (keyOf TableName.antennas) (buildOf TableName.antennas)
      (stepOf TableName.antennas) (stepOf_shape TableName.antennas)
      (keyP_hP TableName.antennas)
      (fun t b p h => keyP_pres TableName.antennas t b p h)
      (fun t p _ hstep =>
        pure_hskip TableName.antennas t p (Or.inr (Or.inr (Or.inl rfl))) hstep)
      (fun t p hA' hwr => hself_generic TableName.antennas t p hA' hwr)
      (fun t p hk _ => hk)
      L t0 hu hA
  | application_purpose =>
    exact run_twice_length (keyOf TableName.application_purpose)
      (buildOf TableName.application_purpose)
      (stepOf TableName.application_purpose) (stepOf_shape TableName.application_purpose)
      (keyP_hP TableName.application_purpose)
      (fun t b p h => keyP_pres TableName.application_purpose t b p h)
      (fun t p _ hstep =>
        pure_hskip TableName.application_purpose t p (Or.inr (Or.inr (Or.inr rfl))) hstep)
      (fun t p hA' hwr => hself_generic TableName.application_purpose t p hA' hwr)
      (fun t p hk _ => hk)
      L t0 hu hA

theorem mem_linesOf (tn : TableName) (files : List DatFile) (p : Bool × List String)
    (hp : p ∈ linesOf tn files) :
    ∃ f ∈ files, f.tn = tn ∧ p.1 = f.isLicenseData ∧ p.2 ∈ f.lines := by
  induction files with
  | nil => cases hp
  | cons f rest ih =>
    rw [linesOf, List.mem_append] at hp
    rcases hp with hp | hp
    · by_cases hf : f.tn = tn
      · rw [if_pos hf] at hp
        obtain ⟨row, hrow, hpr⟩ := List.mem_map.mp hp
        exact ⟨f, List.mem_cons_self f rest, hf, by rw [← hpr], by rw [← hpr]; exact hrow⟩
      · rw [if_neg hf] at hp
        cases hp
    · obtain ⟨g, hg, h1, h2, h3⟩ := ih hp
      exact ⟨g, List.mem_cons_of_mem f hg, h1, h2, h3⟩

/-- Row-count idempotence of a whole double run, under the UNIQUE invariant
on the starting store and non-NULL key fields for every accepted line. -/
theorem runFiles_twice_counts (db : DB) (files : List DatFile)
    (hu : ∀ tn, SqlUnique (keyOf tn) (tableOf tn db))
    (hA : ∀ f ∈ files, ∀ row ∈ f.lines, selfKeyed f.tn (f.isLicenseData, row)) :
    ∀ tn, (tableOf tn (runFiles (runFiles db files) files)).length =
      (tableOf tn (runFiles db files)).length := by
  intro tn
  rw [tableOf_runFiles tn (runFiles db files) files, tableOf_runFiles tn db files]
  refine table_run_twice tn (linesOf tn files) (tableOf tn db) (hu tn) ?_
  intro p hp
  obtain ⟨f, hf, htn, hflag, hrow⟩ := mem_linesOf tn files p hp
  have := hA f hf p.2 hrow
  rw [htn] at this
  have hpeq : p = (f.isLicenseData, p.2) := by
    rw [← hflag]
  rw [hpeq]
  exact this

/-! ## Claim theorems -/

/-- C5: every input line whose field count (including the record-type tag) is
below its branch's minimum — 59 for License, 30 for Entity, 18 for Frequency,
51 for Location, 38 for Antenna, 8 for Purpose — is silently skipped: the
store is untouched, the accepted-record count gets nothing, and no error is
raised (the step is a total function); in particular a License line with 40
fields parses as zero records. -/
theorem C5_min_fields_skip :
    minFields TableName.licenses = 59 ∧ minFields TableName.entities = 30 ∧
    minFields TableName.frequencies = 18 ∧ minFields TableName.locations = 51 ∧
    minFields TableName.antennas = 38 ∧ minFields TableName.application_purpose = 8 ∧
    ∀ (tn : TableName) (isLic : Bool) (db : DB) (row : List String),
      row.length < minFields tn → recordStep tn isLic db row = (db, 0) := by
  refine ⟨rfl, rfl, rfl, rfl, rfl, rfl, ?_⟩
  intro tn isLic db row h
  have hs := stepOf_short tn (tableOf tn db) (isLic, row) h
  cases tn <;>
    · simp only [stepOf, tableOf] at hs
      simp [recordStep, hs]

theorem C5_min_fields_skip_witness :
    (List.replicate 40 "x").length < minFields TableName.licenses ∧
    recordStep TableName.licenses true emptyDB (List.replicate 40 "x") = (emptyDB, 0) :=
  ⟨by decide, C5_min_fields_skip.2.2.2.2.2.2 TableName.licenses true emptyDB
    (List.replicate 40 "x") (by decide)⟩

/-- C10: a store error raised while persisting a single record (the per-line
failure flag models `cursor.execute` raising `sqlite3.Error`, caught by the
per-record `except`) leaves the store unchanged and the count without that
record, and processing continues with the remaining lines: the file's result
is exactly that of the same file with the failing line removed — neither the
file nor the run is aborted. -/
theorem C10_record_error_contained :
    ∀ (tn : TableName) (isLic : Bool) (db : DB)
      (pre post : List (List String × Bool)) (row : List String),
      processLinesF tn isLic db (pre ++ (row, true) :: post) =
        processLinesF tn isLic db (pre ++ post) := by
  intro tn isLic db pre post row
  induction pre generalizing db with
  | nil => simp [processLinesF]
  | cons a pre ih =>
    rcases a with ⟨arow, afail⟩
    simp only [List.cons_append, processLinesF, List.append_eq]
    rw [ih]

/-- C9 counterexample: the claim says Purpose fields receive the same
coercion as the other kinds, storing empty values as absent.  Processing the
8-field line `AP|123||7890|WX|PC|A|` stores the blank `uls_file_number` and
`status_date` as empty-string TEXT — while the coercion used by the other
branches (`safe_str`) would store the absent value. -/
theorem C9_counterexample :
    (purposeStepT [] ["AP", "123", "", "7890", "WX", "PC", "A", ""]).1 =
      [[SqlValue.text "123", SqlValue.text "", SqlValue.text "7890",
        SqlValue.text "WX", SqlValue.text "PC", SqlValue.text "A",
        SqlValue.text ""]] ∧
    SqlValue.text "" ≠ SqlValue.null ∧
    optStr (safe_str "") = SqlValue.null := by
  refine ⟨?_, by decide, by decide⟩
  rfl

/-- C9 (amended): every Purpose line with at least 8 fields is
unconditionally upserted by the composite key
(unique_system_identifier, purpose_code) — columns 0 and 4 — with no
cross-record precedence logic, but its seven fields are bound raw, with no
numeric/text coercion: every stored column is the TEXT of the raw input
field, so empty or whitespace-only values are stored as such, not as absent
values. -/
theorem C9_purpose_upsert_amended (t : SqlTable) (row : List String)
    (h : 8 ≤ row.length) :
    purposeStepT t row = (upsert [0, 4] t (textsOf row 1 7), 1) ∧
    ∀ i < 7, rowVal (textsOf row 1 7) i = SqlValue.text (row.getD (1 + i) "") := by
  constructor
  · rw [purposeStepT, if_pos h]
  · intro i hi
    exact rowVal_textsOf row 1 7 i hi (by omega)

theorem C9_purpose_upsert_amended_witness :
    8 ≤ (["AP", "123", "", "7890", "WX", "PC", "A", ""] : List String).length ∧
    (purposeStepT [] ["AP", "123", "", "7890", "WX", "PC", "A", ""] =
      (upsert [0, 4] [] (textsOf ["AP", "123", "", "7890", "WX", "PC", "A", ""] 1 7), 1) ∧
    ∀ i < 7, rowVal (textsOf ["AP", "123", "", "7890", "WX", "PC", "A", ""] 1 7) i =
      SqlValue.text ((["AP", "123", "", "7890", "WX", "PC", "A", ""] : List String).getD (1 + i) "")) :=
  ⟨by decide, C9_purpose_upsert_amended [] ["AP", "123", "", "7890", "WX", "PC", "A", ""]
    (by decide)⟩

/-- C6: the lenient numeric coercions map an empty or whitespace-only string
to the absent value, map any string the numeric parser rejects to the absent
value instead of raising (the functions are total with `Option` results), and
map the well-formed numeral "465.0125" to the number 465.0125. -/
theorem C6_numeric_coercion :
    (∀ v : String, pystrip v = "" → safe_float v = none ∧ safe_int v = none) ∧
    (∀ v : String, pyFloat v = none → safe_float v = none) ∧
    (∀ v : String, pyInt v = none → safe_int v = none) ∧
    safe_float "  " = none ∧
    safe_float "465.0125" = some ((4650125 : Rat) / 10000) := by
  refine ⟨?_, ?_, ?_, ?_, ?_⟩
  · intro v h
    constructor <;> simp [safe_float, safe_int, h]
  · intro v h
    rw [safe_float]
    split
    · rfl
    · exact h
  · intro v h
    rw [safe_int]
    split
    · rfl
    · exact h
  · rfl
  · have h1 : safe_float "465.0125" =
        some ((465 : Rat) + (125 : Rat) / (10 : Rat) ^ 4) := by rfl
    rw [h1]
    simp only [Option.some.injEq]
    norm_num

theorem C6_numeric_coercion_witness :
    (pystrip "  " = "" ∧ safe_float "  " = none ∧ safe_int "  " = none) ∧
    (pyFloat "abc" = none ∧ safe_float "abc" = none) ∧
    (pyInt "4.2" = none ∧ safe_int "4.2" = none) :=
  ⟨⟨by decide, (C6_numeric_coercion.1 "  " (by decide)).1,
      (C6_numeric_coercion.1 "  " (by decide)).2⟩,
    ⟨by decide, C6_numeric_coercion.2.1 "abc" (by decide)⟩,
    ⟨by decide, C6_numeric_coercion.2.2.1 "4.2" (by decide)⟩⟩

/-! ## Transport lemmas -/

/-- Total wait for `n` consecutive attempts starting at index `idx`. -/
def waitSum (idx : Nat) : Nat → Nat
  | 0 => 0
  | n + 1 => waitBefore idx + waitSum (idx + 1) n

theorem dlAux_fail_prefix :
    ∀ (pre : List Attempt) (c : Attempt) (idx acc : Nat),
      (∀ x ∈ pre, attemptAccepted x = false) → attemptAccepted c = true →
      dlAux true (pre ++ [c]) idx acc =
        (some (idx + pre.length), acc + waitSum idx (pre.length + 1)) := by
  intro pre
  induction pre with
  | nil =>
    intro c idx acc _ hc
    simp [dlAux, hc, waitSum]
  | cons a pre ih =>
    intro c idx acc hfail hc
    have ha : attemptAccepted a = false := hfail a (List.mem_cons_self a pre)
    rw [List.cons_append, dlAux]
    simp only [Bool.not_true, Bool.false_eq_true, if_false, ha]
    rw [ih c (idx + 1) (acc + waitBefore idx)
      (fun x hx => hfail x (List.mem_cons_of_mem a hx)) hc]
    rw [Prod.mk.injEq]
    constructor
    · rw [Option.some.injEq]
      simp [List.length_cons]
      omega
    · rw [List.length_cons]
      have hws : waitSum idx (pre.length + 1 + 1) =
          waitBefore idx + waitSum (idx + 1) (pre.length + 1) := rfl
      rw [hws]
      omega

theorem waitSum_add :
    ∀ (n idx : Nat), 1 ≤ idx → waitSum idx n + 60 * 2 ^ idx = 60 * 2 ^ (idx + n) := by
  intro n
  induction n with
  | zero => intro idx _; simp [waitSum]
  | succ n ih =>
    intro idx hidx
    rw [waitSum, waitBefore, if_pos (by omega : 0 < idx)]
    have h1 := ih (idx + 1) (by omega)
    have h2 : 2 ^ (idx + 1) = 2 * 2 ^ idx := by rw [pow_succ]; ring
    have h3 : idx + 1 + n = idx + (n + 1) := by omega
    rw [h3] at h1
    omega

theorem waitSum_one (m : Nat) : waitSum 0 (m + 1) = 120 * (2 ^ m - 1) := by
  have h0 : waitSum 0 (m + 1) = waitBefore 0 + waitSum 1 m := rfl
  have h1 := waitSum_add m 1 (by omega)
  have h2 : (1 : Nat) ≤ 2 ^ m := Nat.one_le_two_pow
  have h3 : 60 * 2 ^ (1 + m) = 120 * 2 ^ m := by
    rw [pow_add]
    ring
  rw [h0, waitBefore]
  simp only [lt_self_iff_false, if_false]
  omega

/-- C7: with a configured attempt count, the first attempt is made with no
preceding wait; the wait before retry `k` is `2^k * 60` seconds, i.e. the
first retry waits one base unit of 120 s and every further retry doubles the
previous wait; and a call whose first attempts all fail and whose last
attempt succeeds returns the successful attempt (the local file path) with a
total elapsed wait equal to the sum of the doubling schedule,
`120 * (2^(number of failures) - 1)` seconds. -/
theorem C7_retry_backoff :
    (∀ (rest : List Attempt) (a : Attempt), attemptAccepted a = true →
      download_file_with_curl true (a :: rest) = (some 0, 0)) ∧
    (waitBefore 0 = 0 ∧ waitBefore 1 = 120 ∧
      ∀ k, 1 ≤ k → waitBefore (k + 1) = 2 * waitBefore k) ∧
    (∀ (pre : List Attempt) (c : Attempt),
      (∀ x ∈ pre, attemptAccepted x = false) → attemptAccepted c = true →
      download_file_with_curl true (pre ++ [c]) =
        (some pre.length, 120 * (2 ^ pre.length - 1))) := by
  refine ⟨?_, ⟨rfl, rfl, ?_⟩, ?_⟩
  · intro rest a ha
    simp [download_file_with_curl, dlAux, waitBefore, ha]
  · intro k hk
    simp only [waitBefore, if_pos (by omega : 0 < k + 1), if_pos (by omega : 0 < k)]
    rw [pow_succ]
    ring
  · intro pre c hfail hc
    rw [download_file_with_curl, dlAux_fail_prefix pre c 0 0 hfail hc, waitSum_one]
    simp

theorem C7_retry_backoff_witness :
    attemptAccepted ⟨false, false, 0⟩ = false ∧
    attemptAccepted ⟨true, false, 3⟩ = false ∧
    attemptAccepted ⟨true, true, 5⟩ = true ∧
    download_file_with_curl true
      [⟨false, false, 0⟩, ⟨true, false, 3⟩, ⟨true, true, 5⟩] = (some 2, 360) := by
  refine ⟨by decide, by decide, by decide, ?_⟩
  have h := C7_retry_backoff.2.2 [⟨false, false, 0⟩, ⟨true, false, 3⟩]
    ⟨true, true, 5⟩ (by decide) (by decide)
  simpa using h

theorem dlAux_result_ge :
    ∀ (l : List Attempt) (idx acc j : Nat),
      (dlAux true l idx acc).1 = some j → idx ≤ j := by
  intro l
  induction l with
  | nil => intro idx acc j h; simp [dlAux] at h
  | cons a rest ih =>
    intro idx acc j h
    rw [dlAux] at h
    simp only [Bool.not_true, Bool.false_eq_true, if_false] at h
    by_cases ha : attemptAccepted a = true
    · rw [if_pos ha] at h
      simp only [Prod.fst, Option.some.injEq] at h
      omega
    · rw [if_neg ha] at h
      have := ih (idx + 1) (acc + waitBefore idx) j h
      omega

theorem dlAux_all_fail :
    ∀ (l : List Attempt) (idx acc : Nat),
      (∀ a ∈ l, attemptAccepted a = false) → (dlAux true l idx acc).1 = none := by
  intro l
  induction l with
  | nil => intro idx acc _; rfl
  | cons a rest ih =>
    intro idx acc hfail
    rw [dlAux]
    simp only [Bool.not_true, Bool.false_eq_true, if_false,
      hfail a (List.mem_cons_self a rest)]
    exact ih (idx + 1) (acc + waitBefore idx) fun x hx =>
      hfail x (List.mem_cons_of_mem a hx)

/-- C8: an attempt is accepted as successful only if the destination file
exists with non-zero size — the download returns the first attempt only when
its file checks pass; an attempt whose transport (curl) reported success but
whose file is missing or empty is treated exactly as a failed attempt (the
loop proceeds to the next attempt with the backoff wait); and when every
attempt fails the function returns the failure value `none` to the caller
rather than raising. -/
theorem C8_download_verification :
    (∀ (a : Attempt) (rest : List Attempt),
      (download_file_with_curl true (a :: rest)).1 = some 0 →
      a.curlOk = true ∧ a.fileExists = true ∧ 0 < a.fileSize) ∧
    (∀ (a : Attempt) (rest : List Attempt) (idx acc : Nat), a.curlOk = true →
      a.fileExists = false ∨ a.fileSize = 0 →
      dlAux true (a :: rest) idx acc = dlAux true rest (idx + 1) (acc + waitBefore idx)) ∧
    (∀ attempts : List Attempt,
      (∀ a ∈ attempts, a.curlOk = false ∨ a.fileExists = false ∨ a.fileSize = 0) →
      (download_file_with_curl true attempts).1 = none) := by
  refine ⟨?_, ?_, ?_⟩
  · intro a rest h
    by_cases ha : attemptAccepted a = true
    · simp only [attemptAccepted, Bool.and_eq_true, decide_eq_true_eq] at ha
      exact ⟨ha.1.1, ha.1.2, ha.2⟩
    · rw [download_file_with_curl, dlAux] at h
      simp only [Bool.not_true, Bool.false_eq_true, if_false, if_neg ha] at h
      have := dlAux_result_ge rest 1 (0 + waitBefore 0) 0 h
      omega
  · intro a rest idx acc hcurl hfile
    have ha : attemptAccepted a = false := by
      simp only [attemptAccepted, Bool.and_eq_true, Bool.and_eq_false_iff]
      rcases hfile with hf | hf
      · simp [hf]
      · simp [hf]
    rw [dlAux]
    simp only [Bool.not_true, Bool.false_eq_true, if_false, ha]
  · intro attempts hfail
    refine dlAux_all_fail attempts 0 0 fun a ha => ?_
    simp only [attemptAccepted, Bool.and_eq_false_iff]
    rcases hfail a ha with hf | hf | hf
    · simp [hf]
    · simp [hf]
    · simp [hf]

theorem C8_download_verification_witness :
    Attempt.curlOk ⟨true, false, 7⟩ = true ∧
    (download_file_with_curl true [⟨true, false, 7⟩, ⟨true, true, 0⟩]).1 = none ∧
    dlAux true [⟨true, false, 7⟩] 0 0 = dlAux true [] 1 0 := by
  refine ⟨by decide, ?_, ?_⟩
  · exact C8_download_verification.2.2 [⟨true, false, 7⟩, ⟨true, true, 0⟩]
      (by decide)
  · have h := C8_download_verification.2.1 ⟨true, false, 7⟩ [] 0 0 (by decide)
      (Or.inl (by decide))
    simpa using h

/-- C3 counterexample: the claim says every invocation appends one history
row recording the total bytes fetched and the total records processed across
both datasets.  In a run where dataset A was fully processed (2 records
committed, third component) and an exception then escaped into the run-level
`except`, the single history row written by src/main.py 968-972 records
`records_processed = 0` and binds no `file_size` at all — not the totals. -/
theorem C3_counterexample :
    download_and_process ⟨some (100, 2), some "disk full", none⟩ =
      (false, [⟨"LM", none, 0, false, some "disk full"⟩], 2) ∧
    (0 : Nat) ≠ 2 := by
  exact ⟨rfl, by decide⟩

/-- C3 (amended): every invocation of `download_and_process` appends exactly
one run-history row, with the success flag true iff no exception propagated
out of the run; on the normal path the row records the total bytes of the
fetched archives and the total records processed across both datasets; when
an exception is caught at the run boundary the row carries success = false
and the error message but records zero records and no byte count, regardless
of how many records were already committed; in both cases the function
returns a boolean to the caller rather than raising. -/
theorem C3_run_history_amended :
    ∀ w : PipeWorld,
      (download_and_process w).2.1.length = 1 ∧
      ((download_and_process w).1 = true ↔ w.crashAfterFirst = none) ∧
      (∀ msg, w.crashAfterFirst = some msg →
        (download_and_process w).2.1 = [⟨"LM", none, 0, false, some msg⟩] ∧
          (download_and_process w).1 = false) ∧
      (w.crashAfterFirst = none →
        (download_and_process w).2.1 =
          [⟨"LM", some ((w.licDataset.map Prod.fst).getD 0 +
              (w.appDataset.map Prod.fst).getD 0),
            (download_and_process w).2.2, true, none⟩] ∧
          (download_and_process w).1 = true ∧
          (download_and_process w).2.2 = (w.licDataset.map Prod.snd).getD 0 +
            (w.appDataset.map Prod.snd).getD 0) := by
  intro w
  rcases w with ⟨lic, crash, app⟩
  cases crash with
  | none =>
    refine ⟨rfl, by simp [download_and_process], ?_, ?_⟩
    · intro msg hmsg
      cases hmsg
    · intro _
      exact ⟨rfl, rfl, rfl⟩
  | some msg =>
    refine ⟨rfl, by simp [download_and_process], ?_, ?_⟩
    · intro msg' hmsg
      cases hmsg
      exact ⟨rfl, rfl⟩
    · intro hnone
      cases hnone

theorem C3_run_history_amended_witness :
    (download_and_process ⟨some (100, 2), some "disk full", none⟩).2.1 =
      [⟨"LM", none, 0, false, some "disk full"⟩] ∧
    (download_and_process ⟨some (100, 2), some "disk full", none⟩).1 = false ∧
    (download_and_process ⟨some (100, 2), none, some (50, 3)⟩).2.1 =
      [⟨"LM", some 150, 5, true, none⟩] :=
  ⟨((C3_run_history_amended ⟨some (100, 2), some "disk full", none⟩).2.2.1
      "disk full" rfl).1,
    ((C3_run_history_amended ⟨some (100, 2), some "disk full", none⟩).2.2.1
      "disk full" rfl).2,
    ((C3_run_history_amended ⟨some (100, 2), none, some (50, 3)⟩).2.2.2 rfl).1⟩

/-- C1: for a License record parsed from the application dataset whose
identifier already has a License row, the record is skipped (store and count
untouched) iff the existing row's status is ACTIVE/GRANTED/LICENSED
case-insensitively, the existing row has both a non-blank grant date
(column 6) and a non-blank expired date (column 7), and the incoming
record's grant date (`row[7]`) and expired date (`row[8]`) are both blank;
in every other case the incoming record overwrites the existing row: the
store becomes the upsert of the incoming row under the identifier, which the
identifier lookup then returns. -/
theorem C1_license_merge_skip_iff (t : SqlTable) (row : List String) (ex : SqlRow)
    (hlen : 59 ≤ row.length)
    (hex : findByKey0 t (row.getD 1 "") = some ex) :
    (licenseStepT false t row = (t, 0) ↔
      ((∃ s, rowVal ex 4 = SqlValue.text s ∧
          pyupper s ∈ (["ACTIVE", "GRANTED", "LICENSED"] : List String)) ∧
        (∃ g, rowVal ex 6 = SqlValue.text g ∧ pystrip g ≠ "") ∧
        (∃ e, rowVal ex 7 = SqlValue.text e ∧ pystrip e ≠ "") ∧
        pystrip (row.getD 7 "") = "" ∧ pystrip (row.getD 8 "") = "")) ∧
    (¬ ((∃ s, rowVal ex 4 = SqlValue.text s ∧
          pyupper s ∈ (["ACTIVE", "GRANTED", "LICENSED"] : List String)) ∧
        (∃ g, rowVal ex 6 = SqlValue.text g ∧ pystrip g ≠ "") ∧
        (∃ e, rowVal ex 7 = SqlValue.text e ∧ pystrip e ≠ "") ∧
        pystrip (row.getD 7 "") = "" ∧ pystrip (row.getD 8 "") = "") →
      licenseStepT false t row = (upsert [0] t (textsOf row 1 58), 1) ∧
        findByKey0 (upsert [0] t (textsOf row 1 58)) (row.getD 1 "") =
          some (textsOf row 1 58)) := by
  have hsettled : ∀ v : SqlValue, statusSettled v = true ↔
      ∃ s, v = SqlValue.text s ∧
        pyupper s ∈ (["ACTIVE", "GRANTED", "LICENSED"] : List String) := by
    intro v
    cases v with
    | text s =>
      simp only [statusSettled, Bool.and_eq_true, Bool.or_eq_true, beq_iff_eq,
        decide_eq_true_eq, List.mem_cons, List.not_mem_nil, or_false,
        SqlValue.text.injEq]
      constructor
      · rintro ⟨-, h⟩
        exact ⟨s, rfl, by tauto⟩
      · rintro ⟨s', hss', h⟩
        subst hss'
        refine ⟨?_, by tauto⟩
        intro hs0
        subst hs0
        revert h
        decide
    | null => simp [statusSettled]
    | int i => simp [statusSettled]
    | real q => simp [statusSettled]
  have hblank : ∀ v : SqlValue, textNonBlank v = true ↔
      ∃ g, v = SqlValue.text g ∧ pystrip g ≠ "" := by
    intro v
    cases v with
    | text s =>
      simp only [textNonBlank, Bool.and_eq_true, decide_eq_true_eq, ne_eq,
        SqlValue.text.injEq]
      constructor
      · rintro ⟨-, h⟩
        exact ⟨s, rfl, h⟩
      · rintro ⟨g, rfl, h⟩
        refine ⟨?_, h⟩
        intro hs0
        subst hs0
        exact h pystrip_empty
    | null => simp [textNonBlank]
    | int i => simp [textNonBlank]
    | real q => simp [textNonBlank]
  have hiff : licenseStepT false t row = (t, 0) ↔
      ((∃ s, rowVal ex 4 = SqlValue.text s ∧
          pyupper s ∈ (["ACTIVE", "GRANTED", "LICENSED"] : List String)) ∧
        (∃ g, rowVal ex 6 = SqlValue.text g ∧ pystrip g ≠ "") ∧
        (∃ e, rowVal ex 7 = SqlValue.text e ∧ pystrip e ≠ "") ∧
        pystrip (row.getD 7 "") = "" ∧ pystrip (row.getD 8 "") = "") := by
    constructor
    · intro hskip
      rw [licenseStepT, if_pos hlen] at hskip
      by_cases hsp : licenseShouldProcess false t (row.getD 1 "") (row.getD 7 "")
          (row.getD 8 "") = true
      · rw [if_pos hsp] at hskip
        exact absurd (congrArg Prod.snd hskip) (by simp)
      · rw [Bool.not_eq_true, licenseShouldProcess_false_iff] at hsp
        obtain ⟨-, ex', hex', hs, h6, h7, hg7, he8⟩ := hsp
        rw [hex] at hex'
        cases hex'
        exact ⟨(hsettled _).mp hs, (hblank _).mp h6, (hblank _).mp h7, hg7, he8⟩
    · rintro ⟨hs, h6, h7, hg7, he8⟩
      rw [licenseStepT, if_pos hlen]
      have hsp : licenseShouldProcess false t (row.getD 1 "") (row.getD 7 "")
          (row.getD 8 "") = false := by
        rw [licenseShouldProcess_false_iff]
        exact ⟨rfl, ex, hex, (hsettled _).mpr hs, (hblank _).mpr h6,
          (hblank _).mpr h7, hg7, he8⟩
      rw [hsp]
      rfl
  refine ⟨hiff, fun hnot => ⟨?_, ?_⟩⟩
  · rcases stepOf_shape TableName.licenses t (false, row) with hsk | hwr
    · exact absurd (hiff.mp hsk) hnot
    · exact hwr
  · refine findByKey0_upsert_self ?_
    rw [rowVal_textsOf row 1 58 0 (by omega) (by omega)]

/-- An existing settled license row: status "Active" (mixed case), both dates
present, for identifier "1001". -/
def c1Ex : SqlRow :=
  [SqlValue.text "1001", SqlValue.text "", SqlValue.text "", SqlValue.text "WX1",
   SqlValue.text "Active", SqlValue.text "", SqlValue.text "20200101",
   SqlValue.text "20300101"]

/-- An incoming application-dataset license line for "1001" with blank dates. -/
def c1RowBlank : List String := ["HD", "1001"] ++ List.replicate 57 ""

/-- An incoming application-dataset license line for "1001" with a grant date. -/
def c1RowDated : List String :=
  ["HD", "1001", "", "", "", "", "", "20240101"] ++ List.replicate 51 ""

theorem C1_license_merge_skip_iff_witness :
    licenseStepT false [c1Ex] c1RowBlank = ([c1Ex], 0) ∧
    licenseStepT false [c1Ex] c1RowDated =
      (upsert [0] [c1Ex] (textsOf c1RowDated 1 58), 1) := by
  constructor
  · exact (C1_license_merge_skip_iff [c1Ex] c1RowBlank c1Ex (by decide)
      (by decide)).1.mpr
      ⟨⟨"Active", by decide, by decide⟩, ⟨"20200101", by decide, by decide⟩,
        ⟨"20300101", by decide, by decide⟩, by decide, by decide⟩
  · exact ((C1_license_merge_skip_iff [c1Ex] c1RowDated c1Ex (by decide)
      (by decide)).2 (fun h => absurd h.2.2.2.1 (by decide))).1

/-- An entity row stored under the empty identifier with call sign "ABC123". -/
def c2ExRow : SqlRow :=
  [SqlValue.text "", SqlValue.text "", SqlValue.text "", SqlValue.text "ABC123"]

/-- An incoming entity line with blank identifier and call sign "XYZ999". -/
def c2InRow : List String := ["EN", "", "", "", "XYZ999"] ++ List.replicate 25 ""

/-- C2 counterexample: the claim says that whenever an Entity row already
exists for the same identifier with a non-blank call sign different from the
incoming one, the record is discarded and the row unchanged.  With an
existing row under the (shared) empty identifier carrying call sign
"ABC123", an incoming record with blank identifier and call sign "XYZ999"
is *not* discarded: the code only performs the protection lookup when the
stripped identifier is truthy (src/main.py 655), so the existing row is
replaced. -/
theorem C2_counterexample :
    (30 ≤ c2InRow.length ∧
      pystrip (c2InRow.getD 1 "") = "" ∧
      findByKey0 [c2ExRow] (pystrip (c2InRow.getD 1 "")) = some c2ExRow ∧
      rowVal c2ExRow 3 = SqlValue.text "ABC123" ∧
      pystrip (c2InRow.getD 4 "") = "XYZ999" ∧
      ("ABC123" : String) ≠ "XYZ999") ∧
    entityStepT [c2ExRow] c2InRow = ([textsOf c2InRow 1 29], 1) ∧
    ([textsOf c2InRow 1 29] : SqlTable) ≠ [c2ExRow] := by
  refine ⟨⟨by decide, by decide, by decide, by decide, by decide, by decide⟩,
    ?_, by decide⟩
  rfl

/-- C2 (amended): a record with a blank (empty or whitespace-only) call sign
is discarded without touching the store; when the incoming record's
*stripped identifier is non-empty* and an Entity row exists under it whose
stored call sign is TEXT, non-empty and different from the incoming
(stripped) call sign, the record is discarded and the store unchanged; in
every other case — including a same-call-sign record, and *any* record whose
stripped identifier is empty, for which the protection check is skipped
entirely — the record is upserted by identifier (insert or full replace). -/
theorem C2_entity_merge_amended (t : SqlTable) (row : List String)
    (hlen : 30 ≤ row.length) :
    (pystrip (row.getD 4 "") = "" → entityStepT t row = (t, 0)) ∧
    (∀ ex c, pystrip (row.getD 1 "") ≠ "" →
      findByKey0 t (pystrip (row.getD 1 "")) = some ex →
      rowVal ex 3 = SqlValue.text c → c ≠ "" → c ≠ pystrip (row.getD 4 "") →
      entityStepT t row = (t, 0)) ∧
    (pystrip (row.getD 4 "") ≠ "" →
      (pystrip (row.getD 1 "") = "" ∨
        ∀ ex, findByKey0 t (pystrip (row.getD 1 "")) = some ex →
          sqlTruthy (rowVal ex 3) = false ∨
            rowVal ex 3 = SqlValue.text (pystrip (row.getD 4 ""))) →
      entityStepT t row = (upsert [0] t (textsOf row 1 29), 1)) := by
  refine ⟨?_, ?_, ?_⟩
  · intro h
    rw [entityStepT, if_pos hlen, if_pos h]
  · intro ex c hu hfind hex3 hc hne
    by_cases hcs : pystrip (row.getD 4 "") = ""
    · rw [entityStepT, if_pos hlen, if_pos hcs]
    · have hskip : entitySkip t (pystrip (row.getD 1 "")) (pystrip (row.getD 4 "")) =
          true := by
        rw [entitySkip_eq_true_iff]
        refine ⟨hu, ex, hfind, ?_, ?_⟩
        · rw [hex3]
          simp only [sqlTruthy, ne_eq, decide_eq_true_eq]
          exact hc
        · rw [hex3]
          intro hcon
          exact hne (by simpa using hcon)
      rw [entityStepT, if_pos hlen, if_neg hcs, if_pos hskip]
  · intro hcs hor
    have hskip : entitySkip t (pystrip (row.getD 1 "")) (pystrip (row.getD 4 "")) =
        false := by
      rw [Bool.eq_false_iff, ne_eq, entitySkip_eq_true_iff]
      rintro ⟨hune, ex, hfind, htr, hne⟩
      rcases hor with h0 | hall
      · exact hune h0
      · rcases hall ex hfind with h | h
        · rw [htr] at h
          cases h
        · exact hne h
    rw [entityStepT, if_pos hlen, if_neg hcs, if_neg (by rw [hskip]; decide)]

/-- An entity row for identifier "5" with call sign "ABC123". -/
def c2wEx : SqlRow :=
  [SqlValue.text "5", SqlValue.text "", SqlValue.text "", SqlValue.text "ABC123"]

/-- Incoming entity line for "5" with a different call sign. -/
def c2wRowDiff : List String := ["EN", "5", "", "", "XYZ999"] ++ List.replicate 25 ""

/-- Incoming entity line for "5" with the same call sign. -/
def c2wRowSame : List String := ["EN", "5", "", "", "ABC123"] ++ List.replicate 25 ""

theorem C2_entity_merge_amended_witness :
    entityStepT [c2wEx] c2wRowDiff = ([c2wEx], 0) ∧
    entityStepT [c2wEx] c2wRowSame = (upsert [0] [c2wEx] (textsOf c2wRowSame 1 29), 1) := by
  constructor
  · exact (C2_entity_merge_amended [c2wEx] c2wRowDiff (by decide)).2.1 c2wEx
      "ABC123" (by decide) (by decide) (by decide) (by decide) (by decide)
  · refine (C2_entity_merge_amended [c2wEx] c2wRowSame (by decide)).2.2
      (by decide) (Or.inr ?_)
    intro ex hex
    have hfind : findByKey0 [c2wEx] (pystrip (c2wRowSame.getD 1 "")) = some c2wEx := by
      decide
    rw [hfind] at hex
    injection hex with hx
    subst hx
    exact Or.inr (by decide)

/-- A frequency line of the applications layout whose `frequency_number`
field (`row[6]`) is blank, so the stored key contains a NULL. -/
def c4BadLine : List String :=
  ["FR", "123", "2", "3", "4", "5", "", "7", "8", "9", "10", "11", "12", "13",
   "14", "15", "16", "17"]

def c4Files : List DatFile := [⟨TableName.frequencies, false, [c4BadLine]⟩]

/-- C4 counterexample: processing the same input file twice does *not* yield
the same row count as processing it once.  A frequency record whose
`frequency_number` coerces to NULL never conflicts on the UNIQUE index
(SQLite treats NULLs as distinct), so `INSERT OR REPLACE` inserts a fresh
copy on every run: two rows after the double run versus one after a single
run. -/
theorem C4_counterexample :
    (runFiles (runFiles emptyDB c4Files) c4Files).frequencies.length = 2 ∧
    (runFiles emptyDB c4Files).frequencies.length = 1 ∧
    (2 : Nat) ≠ 1 := by
  refine ⟨?_, ?_, by decide⟩
  · rfl
  · rfl

/-- C4 (amended): every persistence operation is an `INSERT OR REPLACE`
keyed by the table's unique or composite key, and running the pipeline's
file-processing twice over the same files yields exactly the same row count
in every table as running it once, provided the starting store satisfies its
UNIQUE-index invariants and every accepted line's key fields are non-NULL.
The proviso is automatic for the TEXT-keyed licenses, entities and purposes
tables; for frequencies, locations and antennas a blank or unparsable key
field is stored as NULL, and such rows are duplicated by a second run
because a UNIQUE index never matches NULLs. -/
theorem C4_idempotent_amended (db : DB) (files : List DatFile)
    (hu : ∀ tn, SqlUnique (keyOf tn) (tableOf tn db))
    (hA : ∀ f ∈ files, ∀ row ∈ f.lines, minFields f.tn ≤ row.length →
      keyConflict (keyOf f.tn) (buildOf f.tn (f.isLicenseData, row))
        (buildOf f.tn (f.isLicenseData, row)) = true) :
    ∀ tn, (tableOf tn (runFiles (runFiles db files) files)).length =
      (tableOf tn (runFiles db files)).length :=
  runFiles_twice_counts db files hu hA

/-- The same frequency line with its key fields present. -/
def c4GoodLine : List String :=
  ["FR", "123", "2", "3", "4", "5", "6", "7", "8", "9", "10", "11", "12", "13",
   "14", "15", "16", "17"]

def c4GoodFiles : List DatFile := [⟨TableName.frequencies, false, [c4GoodLine]⟩]

theorem C4_idempotent_amended_witness :
    (runFiles (runFiles emptyDB c4GoodFiles) c4GoodFiles).frequencies.length =
      (runFiles emptyDB c4GoodFiles).frequencies.length := by
  refine C4_idempotent_amended emptyDB c4GoodFiles ?_ ?_ TableName.frequencies
  · intro tn
    cases tn <;> exact List.Pairwise.nil
  · intro f hf row hrow hlen
    simp only [c4GoodFiles, List.mem_singleton] at hf
    subst hf
    simp only [List.mem_singleton] at hrow
    subst hrow
    decide
